import Mathlib

/-!
Shallow embedding of `include/gnuradio/extras/block.h` (gnuradio extras block
base class).  The header is the only source file of the repository: the bodies
of the tag-store, message-bus and flow-control routines live in a `.cc` file
that is not part of the sources, so those operations are modelled from the
specification text (each such definition carries a doc comment starting with
`Modelled from the spec:`).  The inline bodies that do appear in the header
(`Buffer::get/cast/size`, the `msg_signature` constructor defaults, the
convenience `post_msg` overload, and the default arguments `srcid = pmt::PMT_F`)
are translated directly from the source.
-/

namespace GrExtras

/-- The opaque PMT value type (`pmt::pmt_t`).  The header only needs that it is
a copyable, comparable tagged-union type with a distinguished false value
`pmt::PMT_F`; we model a small closed universe of values with decidable
equality. -/
inductive pmt_t where
  | PMT_F : pmt_t
  | PMT_T : pmt_t
  | sym : String → pmt_t
  | intval : Int → pmt_t
  deriving DecidableEq

/-- The tag record `gr_tag_t`: an absolute stream offset plus key, value and
source-id PMT fields.  The same record doubles as the message envelope. -/
structure gr_tag_t where
  offset : Nat
  key : pmt_t
  value : pmt_t
  srcid : pmt_t
  deriving DecidableEq

/-- `Buffer<PtrType>` from the header: a non-owning handle (`_mem`) plus an
element count (`_len`).  The pointer type is kept abstract. -/
structure Buffer (PtrType : Type) where
  _mem : PtrType
  _len : Nat

/-- `Buffer::get`: returns the stored handle (`return _mem;`). -/
def Buffer.get {P : Type} (b : Buffer P) : P :=
  b._mem

/-- `Buffer::cast<T>`: `return reinterpret_cast<T>(this->get());`.  Pointer
reinterpretation is abstracted as an arbitrary function `reinterpret_cast` from
the declared pointer type to the requested one; the body applies it to
`get()` with no runtime check. -/
def Buffer.cast {P T : Type} (reinterpret_cast : P → T) (b : Buffer P) : T :=
  reinterpret_cast b.get

/-- `Buffer::size`: returns the stored element count (`return _len;`). -/
def Buffer.size {P : Type} (b : Buffer P) : Nat :=
  b._len

/-- `msg_signature`: declares whether the block has an input message port and
how many output message ports it exposes. -/
structure msg_signature where
  has_input : Bool
  num_outputs : Nat
  deriving DecidableEq

/-- The default arguments of the `msg_signature` constructor in the header:
`has_input = false`, `num_outputs = 0`. -/
def msg_signature.mkDefault : msg_signature :=
  { has_input := false, num_outputs := 0 }

/-! ### Tag store -/

/-- Modelled from the spec: the body of `add_item_tag(which_output, tag)` is
not under the sources (only its declaration is).  Per the spec it inserts the
tag on the given output port; tags are produced in offset order, so the store
of one port is a list in production order and insertion appends. -/
def add_item_tag (store : List gr_tag_t) (tag : gr_tag_t) : List gr_tag_t :=
  store ++ [tag]

/-- The field-wise `add_item_tag` overload declared in the header: it carries
the record fields separately; the record built from them is inserted. -/
def add_item_tag_fields (store : List gr_tag_t) (abs_offset : Nat)
    (key value srcid : pmt_t) : List gr_tag_t :=
  add_item_tag store { offset := abs_offset, key := key, value := value, srcid := srcid }

/-- Calling the field-wise overload without the `srcid` argument: the header
declares the default argument `srcid = pmt::PMT_F`. -/
def add_item_tag_fields_nosrc (store : List gr_tag_t) (abs_offset : Nat)
    (key value : pmt_t) : List gr_tag_t :=
  add_item_tag_fields store abs_offset key value pmt_t.PMT_F

/-- Modelled from the spec: the body of
`get_tags_in_range(tags, which_input, abs_start, abs_end)` is not under the
sources.  Per the spec it appends to the caller's vector (never clearing it)
every tag of the port whose offset lies in the half-open range
`[abs_start, abs_end)`. -/
def get_tags_in_range (tags : List gr_tag_t) (store : List gr_tag_t)
    (abs_start abs_end : Nat) : List gr_tag_t :=
  tags ++ store.filter (fun t => decide (abs_start ≤ t.offset) && decide (t.offset < abs_end))

/-- Modelled from the spec: the key-filtered `get_tags_in_range` overload
additionally keeps only tags whose key equals the given key. -/
def get_tags_in_range_key (tags : List gr_tag_t) (store : List gr_tag_t)
    (abs_start abs_end : Nat) (key : pmt_t) : List gr_tag_t :=
  tags ++ store.filter (fun t =>
    decide (abs_start ≤ t.offset) && decide (t.offset < abs_end) && decide (t.key = key))

/-! ### Message bus -/

/-- One entry of a subscriber group: a target block (by index into the system
state) and that block's input message port. -/
structure Subscriber where
  blk : Nat
  port : Nat
  deriving DecidableEq

/-- The per-block state the header's routines observe: the inbound message
queue, the per-output tag stores and the cumulative read/write counters. -/
structure BlockState where
  msg_queue : List gr_tag_t
  out_tags : List (List gr_tag_t)
  nread : List Nat
  nwritten : List Nat
  deriving DecidableEq

/-- A freshly constructed block: empty inbound queue, empty tag stores, zero
counters. -/
def fresh_block (num_inputs num_outputs : Nat) : BlockState :=
  { msg_queue := []
    out_tags := List.replicate num_outputs []
    nread := List.replicate num_inputs 0
    nwritten := List.replicate num_outputs 0 }

/-- The whole-graph state the message bus acts on: one `BlockState` per block
index. -/
structure SysState where
  blocks : List BlockState
  deriving DecidableEq

/-- Appending one message to a block's inbound queue (the delivery step of the
bus). -/
def enqueue (b : BlockState) (msg : gr_tag_t) : BlockState :=
  { b with msg_queue := b.msg_queue ++ [msg] }

/-- Delivery of one message to the inbound queue of block `i`; out-of-range
indices leave the state unchanged. -/
def deliver (st : SysState) (i : Nat) (msg : gr_tag_t) : SysState :=
  match st.blocks[i]? with
  | none => st
  | some b => { blocks := st.blocks.set i (enqueue b msg) }

/-- Modelled from the spec: the body of `post_msg(group, msg)` is not under
the sources.  Per the spec it delivers `msg` to every subscriber registered
under `group` in the block's outbound subscriber-group table, appending to
each subscriber's inbound queue; a group with no subscribers is a silent
no-op. -/
def post_msg (groups : List (List Subscriber)) (group : Nat) (msg : gr_tag_t)
    (st : SysState) : SysState :=
  match groups[group]? with
  | none => st
  | some subs => subs.foldl (fun s sub => deliver s sub.blk msg) st

/-- The inline convenience `post_msg` overload, translated from the header:
`gr_tag_t tag; tag.offset = 0; tag.key = key; tag.value = value;
tag.srcid = srcid; this->post_msg(group, tag);`.  The record is built field by
field from a default-constructed tag, mirroring the C++ body. -/
def post_msg_kvs (groups : List (List Subscriber)) (group : Nat)
    (key value srcid : pmt_t) (st : SysState) : SysState :=
  let tag0 : gr_tag_t := { offset := 0, key := pmt_t.PMT_F, value := pmt_t.PMT_F, srcid := pmt_t.PMT_F }
  let tag1 := { tag0 with offset := 0 }
  let tag2 := { tag1 with key := key }
  let tag3 := { tag2 with value := value }
  let tag4 := { tag3 with srcid := srcid }
  post_msg groups group tag4 st

/-- The spec's words for the convenience overload: the general `post_msg`
applied to a message record whose offset field is zero and whose key, value
and srcid fields are the given arguments. -/
def post_msg_kvs_spec (groups : List (List Subscriber)) (group : Nat)
    (key value srcid : pmt_t) (st : SysState) : SysState :=
  post_msg groups group { offset := 0, key := key, value := value, srcid := srcid } st

/-- Calling the convenience overload without the `srcid` argument: the header
declares the default argument `srcid = pmt::PMT_F`. -/
def post_msg_kvs_nosrc (groups : List (List Subscriber)) (group : Nat)
    (key value : pmt_t) (st : SysState) : SysState :=
  post_msg_kvs groups group key value pmt_t.PMT_F st

/-- Modelled from the spec: `check_msg_queue` is non-blocking and returns
whether the inbound queue is non-empty. -/
def check_msg_queue (b : BlockState) : Bool :=
  !b.msg_queue.isEmpty

/-- Modelled from the spec: `pop_msg_queue` removes and returns the oldest
queued message; on an empty queue the call suspends, modelled here as `none`
(no result is produced until a message arrives). -/
def pop_msg_queue (b : BlockState) : Option (gr_tag_t × BlockState) :=
  match b.msg_queue with
  | [] => none
  | m :: rest => some (m, { b with msg_queue := rest })

/-- Posting a whole sequence of messages, oldest first, to one group: the
single-producer trace the ordering guarantee quantifies over. -/
def post_all (groups : List (List Subscriber)) (group : Nat)
    (msgs : List gr_tag_t) (st : SysState) : SysState :=
  msgs.foldl (fun s m => post_msg groups group m s) st

/-- The inbound queue of block `i` in a system state (empty for an
out-of-range index). -/
def msg_queue_of (st : SysState) (i : Nat) : List gr_tag_t :=
  match st.blocks[i]? with
  | none => []
  | some b => b.msg_queue

/-! ### Flow control -/

/-- Modelled from the spec: the default `forecast` body is not under the
sources.  Per the spec it assumes equal item counts on every input for every
output: it fills every entry of `ninput_items_required` with
`noutput_items`. -/
def forecast_default (noutput_items : Nat) (ninput_items_required : List Nat) : List Nat :=
  ninput_items_required.map (fun _ => noutput_items)

/-- Modelled from the spec: in automatic mode the facet infers consumption
from production using the configured relative rate (consumed =
produced / relative_rate).  The spec leaves the rounding of non-integral
results open; the floor is used here and all cases considered are exact. -/
def auto_infer_consumed (produced : Nat) (relative_rate : ℚ) : Nat :=
  (Int.floor ((produced : ℚ) / relative_rate)).toNat

/-- The flow-control facet state for a block with one input and one output
port: the relative rate plus the cumulative consumed/produced counters. -/
structure FlowState where
  relative_rate : ℚ
  nread : Nat
  nwritten : Nat

/-- Modelled from the spec: the automatic-mode bookkeeping after `work`
returns having produced `produced` output items: the facet calls
consume/produce on the block's behalf, advancing the consumed counter by the
inferred amount and the produced counter by `produced`. -/
def auto_post_work (st : FlowState) (produced : Nat) : FlowState :=
  { st with
    nread := st.nread + auto_infer_consumed produced st.relative_rate
    nwritten := st.nwritten + produced }

/-! ### Message port indexing -/

/-- A port of the block is either an ordinary sample port or a message
port. -/
inductive PortKind where
  | sample : PortKind
  | message : PortKind
  deriving DecidableEq, BEq

/-- Modelled from the spec: the block's input port enumeration.  Per the
header's constructor documentation there is one optional input message port,
considered to be indexed after the input IO signature. -/
def input_ports (num_sample_inputs : Nat) (sig : msg_signature) : List PortKind :=
  List.replicate num_sample_inputs PortKind.sample ++
    (if sig.has_input then [PortKind.message] else [])

/-- Modelled from the spec: the block's output port enumeration.  Per the
header's constructor documentation the message output ports are optional
output ports, considered to be indexed after the output IO signature. -/
def output_ports (num_sample_outputs : Nat) (sig : msg_signature) : List PortKind :=
  List.replicate num_sample_outputs PortKind.sample ++
    List.replicate sig.num_outputs PortKind.message


/-! ## Helper lemmas -/

/-- Delivery never changes the number of blocks in the system. -/
theorem blocks_length_deliver (st : SysState) (i : Nat) (msg : gr_tag_t) :
    (deliver st i msg).blocks.length = st.blocks.length := by
  unfold deliver
  cases h : st.blocks[i]? <;> simp

/-- Delivery to block `i` leaves the queue of any other block unchanged. -/
theorem msg_queue_of_deliver_ne (st : SysState) (i j : Nat) (msg : gr_tag_t)
    (hij : i ≠ j) :
    msg_queue_of (deliver st i msg) j = msg_queue_of st j := by
  unfold deliver msg_queue_of
  cases h : st.blocks[i]? <;> simp [List.getElem?_set_ne hij]

/-- Delivery to an in-range block appends the message to that block's
queue. -/
theorem msg_queue_of_deliver_self (st : SysState) (i : Nat) (msg : gr_tag_t)
    (hi : i < st.blocks.length) :
    msg_queue_of (deliver st i msg) i = msg_queue_of st i ++ [msg] := by
  unfold deliver msg_queue_of
  cases h : st.blocks[i]? with
  | none => simp [List.getElem?_eq_getElem hi] at h
  | some b => simp [List.getElem?_set_eq_of_lt _ hi, h, enqueue]

/-- Folding deliveries over a subscriber list never changes the number of
blocks. -/
theorem blocks_length_foldl_deliver (msg : gr_tag_t) :
    ∀ (subs : List Subscriber) (st : SysState),
      (subs.foldl (fun s sub => deliver s sub.blk msg) st).blocks.length
        = st.blocks.length := by
  intro subs
  induction subs with
  | nil => intro st; rfl
  | cons x xs ih =>
    intro st
    rw [List.foldl_cons, ih (deliver st x.blk msg), blocks_length_deliver]

/-- Folding deliveries over a subscriber list appends one copy of the message
to queue `i` for every occurrence of block `i` among the subscribers. -/
theorem msg_queue_of_foldl_deliver (msg : gr_tag_t) :
    ∀ (subs : List Subscriber) (st : SysState) (i : Nat), i < st.blocks.length →
      msg_queue_of (subs.foldl (fun s sub => deliver s sub.blk msg) st) i
        = msg_queue_of st i ++ List.replicate ((subs.map Subscriber.blk).count i) msg := by
  intro subs
  induction subs with
  | nil => intro st i hi; simp
  | cons x xs ih =>
    intro st i hi
    have hlen : i < (deliver st x.blk msg).blocks.length := by
      rw [blocks_length_deliver]; exact hi
    rw [List.foldl_cons, ih (deliver st x.blk msg) i hlen, List.map_cons,
      List.count_cons]
    by_cases hx : x.blk = i
    · subst hx
      rw [msg_queue_of_deliver_self st x.blk msg hi]
      simp [List.replicate_succ, List.append_assoc]
    · rw [msg_queue_of_deliver_ne st x.blk i msg hx]
      simp [hx]

/-- Posting never changes the number of blocks in the system. -/
theorem blocks_length_post_msg (groups : List (List Subscriber)) (g : Nat)
    (msg : gr_tag_t) (st : SysState) :
    (post_msg groups g msg st).blocks.length = st.blocks.length := by
  unfold post_msg
  cases h : groups[g]? with
  | none => rfl
  | some subs => exact blocks_length_foldl_deliver msg subs st

/-- One post to a group appends one copy of the message to the queue of block
`i` for every occurrence of `i` among the group's subscribers. -/
theorem msg_queue_of_post_msg (groups : List (List Subscriber)) (g : Nat)
    (subs : List Subscriber) (i : Nat) (msg : gr_tag_t) (st : SysState)
    (hg : groups[g]? = some subs) (hi : i < st.blocks.length) :
    msg_queue_of (post_msg groups g msg st) i
      = msg_queue_of st i ++ List.replicate ((subs.map Subscriber.blk).count i) msg := by
  unfold post_msg
  rw [hg]
  exact msg_queue_of_foldl_deliver msg subs st i hi

/-- Counting occurrences in a replicated list, for a boolean predicate. -/
theorem countP_replicate (p : PortKind → Bool) (n : Nat) (a : PortKind) :
    (List.replicate n a).countP p = if p a then n else 0 := by
  induction n with
  | zero => simp
  | succ k ih =>
    simp [List.replicate_succ, List.countP_cons, ih]
    split <;> simp [*]

/-! ## Claims -/

/-- C2: for every Buffer value, `get` returns exactly the stored handle,
`size` returns exactly the stored element count, and `cast` is the
reinterpretation of `get` with no runtime check.  All three are pure
functions of the (immutable) Buffer record, so none of them mutates the
Buffer. -/
theorem C2_buffer_accessors : ∀ (P T : Type) (reinterpret_cast : P → T) (b : Buffer P),
    b.get = b._mem ∧ b.size = b._len ∧ b.cast reinterpret_cast = reinterpret_cast b.get :=
  fun _ _ _ _ => ⟨rfl, rfl, rfl⟩

/-- C3: the convenience `post_msg(group, key, value, srcid)` overload behaves
exactly like the general `post_msg(group, msg)` applied to a message record
whose offset field is zero and whose key, value and srcid fields are the
given arguments. -/
theorem C3_post_msg_overload :
    ∀ (groups : List (List Subscriber)) (group : Nat) (key value srcid : pmt_t)
      (st : SysState),
      post_msg_kvs groups group key value srcid st
        = post_msg_kvs_spec groups group key value srcid st :=
  fun _ _ _ _ _ _ => rfl

/-- C5: the default forecast fills `ninput_items_required` with a count equal
to `noutput_items` on every input port: the result replaces every entry of
the vector by `noutput_items`. -/
theorem C5_forecast_equal_counts :
    ∀ (noutput_items : Nat) (ninput_items_required : List Nat),
      forecast_default noutput_items ninput_items_required
        = List.replicate ninput_items_required.length noutput_items := by
  intro n v
  simp [forecast_default, List.map_const']

/-- C8: posting to a group whose subscriber list is empty is a silent no-op:
the entire system state (every inbound queue, all counters, every tag store)
is unchanged and no error is signalled. -/
theorem C8_post_empty_group (groups : List (List Subscriber)) (g : Nat)
    (msg : gr_tag_t) (st : SysState) (h : groups[g]? = some []) :
    post_msg groups g msg st = st := by
  unfold post_msg
  rw [h]
  rfl

/-- Witness for C8 at a concrete empty group and concrete state. -/
theorem C8_post_empty_group_witness :
    post_msg [[]] 0 { offset := 0, key := pmt_t.PMT_F, value := pmt_t.PMT_F, srcid := pmt_t.PMT_F }
        { blocks := [fresh_block 1 1] }
      = { blocks := [fresh_block 1 1] } :=
  C8_post_empty_group [[]] 0 _ _ rfl

/-- C10: when `srcid` is omitted, the field-wise `add_item_tag` overload and
the convenience `post_msg` overload default the record's srcid field to
`pmt::PMT_F`, and `msg_signature` default-constructs with `has_input = false`
and `num_outputs = 0`; the stored/posted record always carries a source-id
field. -/
theorem C10_default_arguments :
    (∀ (store : List gr_tag_t) (abs_offset : Nat) (key value : pmt_t),
      add_item_tag_fields_nosrc store abs_offset key value
        = store ++ [{ offset := abs_offset, key := key, value := value, srcid := pmt_t.PMT_F }])
    ∧ (∀ (groups : List (List Subscriber)) (group : Nat) (key value : pmt_t) (st : SysState),
      post_msg_kvs_nosrc groups group key value st
        = post_msg groups group { offset := 0, key := key, value := value, srcid := pmt_t.PMT_F } st)
    ∧ msg_signature.mkDefault.has_input = false
    ∧ msg_signature.mkDefault.num_outputs = 0 :=
  ⟨fun _ _ _ _ => rfl, fun _ _ _ _ _ => rfl, rfl, rfl⟩

/-- C6: check_msg_queue returns true exactly when the inbound queue is
non-empty: false on a freshly constructed block, true immediately after a
post_msg that targets this block's queue, and false again after one
pop_msg_queue when no further messages have arrived.  It is modelled as a
total function, so it never suspends the caller. -/
theorem C6_check_msg_queue :
    (∀ (b : BlockState), check_msg_queue b = true ↔ b.msg_queue ≠ [])
    ∧ (∀ (num_inputs num_outputs : Nat),
        check_msg_queue (fresh_block num_inputs num_outputs) = false)
    ∧ (∀ (b : BlockState) (msg : gr_tag_t), check_msg_queue (enqueue b msg) = true)
    ∧ (∀ (groups : List (List Subscriber)) (g : Nat) (subs : List Subscriber)
        (sub : Subscriber) (msg : gr_tag_t) (st : SysState),
        groups[g]? = some subs → sub ∈ subs → sub.blk < st.blocks.length →
        msg_queue_of (post_msg groups g msg st) sub.blk ≠ [])
    ∧ (∀ (b : BlockState) (msg : gr_tag_t), b.msg_queue = [] →
        pop_msg_queue (enqueue b msg) = some (msg, b) ∧ check_msg_queue b = false) := by
  refine ⟨?_, ?_, ?_, ?_, ?_⟩
  · intro b
    cases hq : b.msg_queue <;> simp [check_msg_queue, hq]
  · intro ni no
    rfl
  · intro b msg
    simp [check_msg_queue, enqueue]
  · intro groups g subs sub msg st hg hmem hlt
    have hmem2 : sub.blk ∈ subs.map Subscriber.blk := List.mem_map_of_mem _ hmem
    have hc : (subs.map Subscriber.blk).count sub.blk ≠ 0 := by
      intro h0
      exact (List.count_eq_zero.mp h0) hmem2
    rw [msg_queue_of_post_msg groups g subs sub.blk msg st hg hlt]
    intro heq
    exact hc (by simpa using (List.append_eq_nil.mp heq).2)
  · intro b msg h
    obtain ⟨q, ot, nr, nw⟩ := b
    have hq : q = [] := h
    subst hq
    exact ⟨rfl, rfl⟩

/-- Witness for C6 at a concrete fresh block and concrete message. -/
theorem C6_check_msg_queue_witness :
    pop_msg_queue (enqueue (fresh_block 1 1)
        { offset := 0, key := pmt_t.PMT_F, value := pmt_t.PMT_F, srcid := pmt_t.PMT_F })
      = some ({ offset := 0, key := pmt_t.PMT_F, value := pmt_t.PMT_F, srcid := pmt_t.PMT_F },
          fresh_block 1 1)
    ∧ check_msg_queue (fresh_block 1 1) = false :=
  C6_check_msg_queue.2.2.2.2 (fresh_block 1 1) _ rfl

/-- C7: all messages posted by a single producer to a single group reach each
subscriber of the group, appended to its inbound queue in exactly the posted
order, and successive pop_msg_queue calls observe the queue front to back, so
each subscriber observes the messages in post order independently of the
others. -/
theorem C7_fifo_order :
    (∀ (groups : List (List Subscriber)) (g : Nat) (subs : List Subscriber)
        (sub : Subscriber) (msgs : List gr_tag_t) (st : SysState),
        groups[g]? = some subs → sub ∈ subs →
        (subs.map Subscriber.blk).count sub.blk = 1 →
        sub.blk < st.blocks.length →
        msg_queue_of (post_all groups g msgs st) sub.blk
          = msg_queue_of st sub.blk ++ msgs)
    ∧ (∀ (b : BlockState) (m : gr_tag_t) (rest : List gr_tag_t),
        b.msg_queue = m :: rest →
        pop_msg_queue b = some (m, { b with msg_queue := rest })) := by
  constructor
  · intro groups g subs sub msgs
    induction msgs with
    | nil =>
      intro st hg hmem honce hlt
      simp [post_all]
    | cons m ms ih =>
      intro st hg hmem honce hlt
      have hlen : sub.blk < (post_msg groups g m st).blocks.length := by
        rw [blocks_length_post_msg]
        exact hlt
      have hrec := ih (post_msg groups g m st) hg hmem honce hlen
      unfold post_all at hrec ⊢
      rw [List.foldl_cons, hrec,
        msg_queue_of_post_msg groups g subs sub.blk m st hg hlt, honce]
      simp
  · intro b m rest h
    unfold pop_msg_queue
    rw [h]

/-- Witness for C7: two messages posted to a singleton-subscriber group land
on the subscriber queue in post order. -/
theorem C7_fifo_order_witness :
    msg_queue_of (post_all [[{ blk := 0, port := 1 }]] 0
        [{ offset := 0, key := pmt_t.PMT_T, value := pmt_t.PMT_F, srcid := pmt_t.PMT_F },
         { offset := 0, key := pmt_t.PMT_F, value := pmt_t.PMT_T, srcid := pmt_t.PMT_F }]
        { blocks := [fresh_block 1 1] }) 0
      = msg_queue_of { blocks := [fresh_block 1 1] } 0
        ++ [{ offset := 0, key := pmt_t.PMT_T, value := pmt_t.PMT_F, srcid := pmt_t.PMT_F },
            { offset := 0, key := pmt_t.PMT_F, value := pmt_t.PMT_T, srcid := pmt_t.PMT_F }] :=
  C7_fifo_order.1 _ 0 _ { blk := 0, port := 1 } _ _ rfl (by decide) (by decide) (by decide)

/-- C9: a block constructed with msg_signature(true, 2) exposes exactly one
input message port, indexed immediately after the last input sample port, and
exactly two output message ports, indexed immediately after the last output
sample port; in general the message-port counts are exactly the msg_signature
fields. -/
theorem C9_msg_ports : ∀ (num_sample_inputs num_sample_outputs : Nat),
    ((input_ports num_sample_inputs (msg_signature.mk true 2)).length
      = num_sample_inputs + 1)
    ∧ ((input_ports num_sample_inputs (msg_signature.mk true 2))[num_sample_inputs]?
      = some PortKind.message)
    ∧ ((input_ports num_sample_inputs (msg_signature.mk true 2)).countP
        (fun p => decide (p = PortKind.message)) = 1)
    ∧ (∀ i, i < num_sample_inputs →
        (input_ports num_sample_inputs (msg_signature.mk true 2))[i]?
          = some PortKind.sample)
    ∧ ((output_ports num_sample_outputs (msg_signature.mk true 2)).length
      = num_sample_outputs + 2)
    ∧ ((output_ports num_sample_outputs (msg_signature.mk true 2))[num_sample_outputs]?
      = some PortKind.message)
    ∧ ((output_ports num_sample_outputs (msg_signature.mk true 2))[num_sample_outputs + 1]?
      = some PortKind.message)
    ∧ ((output_ports num_sample_outputs (msg_signature.mk true 2)).countP
        (fun p => decide (p = PortKind.message)) = 2)
    ∧ (∀ i, i < num_sample_outputs →
        (output_ports num_sample_outputs (msg_signature.mk true 2))[i]?
          = some PortKind.sample)
    ∧ (∀ sig : msg_signature,
        (input_ports num_sample_inputs sig).countP
            (fun p => decide (p = PortKind.message))
          = if sig.has_input then 1 else 0)
    ∧ (∀ sig : msg_signature,
        (output_ports num_sample_outputs sig).countP
            (fun p => decide (p = PortKind.message))
          = sig.num_outputs) := by
  intro nin nout
  have hin : input_ports nin (msg_signature.mk true 2)
      = List.replicate nin PortKind.sample ++ [PortKind.message] := by
    simp [input_ports]
  have hout : output_ports nout (msg_signature.mk true 2)
      = List.replicate nout PortKind.sample
        ++ List.replicate 2 PortKind.message := by
    simp [output_ports]
  refine ⟨?_, ?_, ?_, ?_, ?_, ?_, ?_, ?_, ?_, ?_, ?_⟩
  · simp [hin]
  · rw [hin, List.getElem?_append_right (by simp)]
    simp
  · simp [hin, List.countP_append, countP_replicate, List.countP_cons]
  · intro i hi
    rw [hin, List.getElem?_append]
    simp [hi]
  · simp [hout]
  · rw [hout, List.getElem?_append_right (by simp)]
    simp [List.replicate_succ]
  · rw [hout, List.getElem?_append_right (by simp)]
    simp [List.replicate_succ]
  · simp [hout, List.countP_append, countP_replicate]
  · intro i hi
    rw [hout, List.getElem?_append]
    simp [hi]
  · intro sig
    cases sig with
    | mk hi no =>
      cases hi <;> simp [input_ports, List.countP_append, countP_replicate, List.countP_cons]
  · intro sig
    simp [output_ports, List.countP_append, countP_replicate]

/-- Witness for C9 with one sample port on each side: the sample ports keep
their indices below the message ports. -/
theorem C9_msg_ports_witness :
    (input_ports 1 (msg_signature.mk true 2))[0]? = some PortKind.sample
    ∧ (output_ports 1 (msg_signature.mk true 2))[0]? = some PortKind.sample :=
  ⟨(C9_msg_ports 1 1).2.2.2.1 0 (by decide),
   (C9_msg_ports 1 1).2.2.2.2.2.2.2.2.1 0 (by decide)⟩

/-- C4 counterexample: the claim asserts that with relative_rate 2.0 a block
that has not overridden forecast yields a forecast of 50 required input items
for noutput_items = 100; but the default forecast requests equal item counts
and ignores the relative rate, so on a single input port it forecasts 100,
not 50. -/
theorem C4_counterexample :
    forecast_default 100 [0] = [100] ∧ ¬ forecast_default 100 [0] = [50] := by
  constructor
  · rfl
  · decide

/-- C4 amended: with relative_rate = 2.0 and the default forecast, a request
for noutput_items = 100 produces a forecast of 100 required input items (the
default forecast requests equal counts and ignores the relative rate); after
work reports producing 100 output items, the automatic machinery advances the
consumed counter by 100 / 2.0 = 50 and the produced counter by 100. -/
theorem C4_auto_rate :
    ∀ (st : FlowState), st.relative_rate = 2 →
      forecast_default 100 [0] = [100]
      ∧ (auto_post_work st 100).nread = st.nread + 50
      ∧ (auto_post_work st 100).nwritten = st.nwritten + 100 := by
  intro st h
  refine ⟨rfl, ?_, rfl⟩
  have hq : ((100 : Nat) : ℚ) / 2 = ((50 : Nat) : ℚ) := by norm_num
  have hc : auto_infer_consumed 100 st.relative_rate = 50 := by
    rw [h]
    unfold auto_infer_consumed
    rw [hq, Int.floor_natCast]
    rfl
  simp [auto_post_work, hc]

/-- Witness for the amended C4 at the concrete facet state with rate 2 and
zero counters. -/
theorem C4_auto_rate_witness :
    forecast_default 100 [0] = [100]
    ∧ (auto_post_work { relative_rate := 2, nread := 0, nwritten := 0 } 100).nread = 0 + 50
    ∧ (auto_post_work { relative_rate := 2, nread := 0, nwritten := 0 } 100).nwritten = 0 + 100 :=
  C4_auto_rate { relative_rate := 2, nread := 0, nwritten := 0 } rfl

/-- C1: get_tags_in_range appends to the caller's vector without clearing its
prior contents; the appended tags are exactly the tags of the port whose
offset lies in [abs_start, abs_end) (optionally those matching the given
key), in offset-ascending order; for tags added at offsets o1 < o2 < o3,
querying [o1, o3) yields exactly the tags at o1 and o2 in that order and
querying [o2, o2+1) yields only the tag at o2. -/
theorem C1_get_tags_in_range :
    (∀ (tags store : List gr_tag_t) (s e : Nat),
      get_tags_in_range tags store s e = tags ++ get_tags_in_range [] store s e)
    ∧ (∀ (store : List gr_tag_t) (s e : Nat) (t : gr_tag_t),
      t ∈ get_tags_in_range [] store s e ↔ t ∈ store ∧ s ≤ t.offset ∧ t.offset < e)
    ∧ (∀ (store : List gr_tag_t) (s e : Nat) (k : pmt_t) (t : gr_tag_t),
      t ∈ get_tags_in_range_key [] store s e k
        ↔ t ∈ store ∧ s ≤ t.offset ∧ t.offset < e ∧ t.key = k)
    ∧ (∀ (store : List gr_tag_t) (s e : Nat),
      store.Pairwise (fun a b => a.offset ≤ b.offset) →
      (get_tags_in_range [] store s e).Pairwise (fun a b => a.offset ≤ b.offset))
    ∧ (∀ (o1 o2 o3 : Nat) (k1 v1 c1 k2 v2 c2 k3 v3 c3 : pmt_t), o1 < o2 → o2 < o3 →
      get_tags_in_range []
          (add_item_tag (add_item_tag (add_item_tag [] ⟨o1, k1, v1, c1⟩)
            ⟨o2, k2, v2, c2⟩) ⟨o3, k3, v3, c3⟩) o1 o3
        = [⟨o1, k1, v1, c1⟩, ⟨o2, k2, v2, c2⟩]
      ∧ get_tags_in_range []
          (add_item_tag (add_item_tag (add_item_tag [] ⟨o1, k1, v1, c1⟩)
            ⟨o2, k2, v2, c2⟩) ⟨o3, k3, v3, c3⟩) o2 (o2 + 1)
        = [⟨o2, k2, v2, c2⟩]) := by
  refine ⟨?_, ?_, ?_, ?_, ?_⟩
  · intro tags store s e
    simp [get_tags_in_range]
  · intro store s e t
    simp [get_tags_in_range, List.mem_filter, and_assoc]
  · intro store s e k t
    simp [get_tags_in_range_key, List.mem_filter, and_assoc]
  · intro store s e h
    have he : get_tags_in_range [] store s e
        = store.filter (fun t => decide (s ≤ t.offset) && decide (t.offset < e)) := by
      simp [get_tags_in_range]
    rw [he]
    exact h.sublist (List.filter_sublist store)
  · intro o1 o2 o3 k1 v1 c1 k2 v2 c2 k3 v3 c3 h12 h23
    have h13 : o1 < o3 := h12.trans h23
    have hn1 : ¬ o2 ≤ o1 := by omega
    have hn3 : ¬ o3 < o2 + 1 := by omega
    constructor
    · simp [get_tags_in_range, add_item_tag, List.filter_cons, h12.le, h13, h23]
    · simp [get_tags_in_range, add_item_tag, List.filter_cons, hn1, hn3,
        Nat.lt_succ_self]

/-- Witness for C1 on three concrete tags at offsets 0 < 1 < 2. -/
theorem C1_get_tags_in_range_witness :
    get_tags_in_range []
        (add_item_tag (add_item_tag (add_item_tag []
          ⟨0, pmt_t.PMT_F, pmt_t.PMT_F, pmt_t.PMT_F⟩)
          ⟨1, pmt_t.PMT_T, pmt_t.PMT_F, pmt_t.PMT_F⟩)
          ⟨2, pmt_t.PMT_F, pmt_t.PMT_T, pmt_t.PMT_F⟩) 0 2
      = [⟨0, pmt_t.PMT_F, pmt_t.PMT_F, pmt_t.PMT_F⟩,
         ⟨1, pmt_t.PMT_T, pmt_t.PMT_F, pmt_t.PMT_F⟩]
    ∧ get_tags_in_range []
        (add_item_tag (add_item_tag (add_item_tag []
          ⟨0, pmt_t.PMT_F, pmt_t.PMT_F, pmt_t.PMT_F⟩)
          ⟨1, pmt_t.PMT_T, pmt_t.PMT_F, pmt_t.PMT_F⟩)
          ⟨2, pmt_t.PMT_F, pmt_t.PMT_T, pmt_t.PMT_F⟩) 1 (1 + 1)
      = [⟨1, pmt_t.PMT_T, pmt_t.PMT_F, pmt_t.PMT_F⟩] :=
  C1_get_tags_in_range.2.2.2.2 0 1 2
    pmt_t.PMT_F pmt_t.PMT_F pmt_t.PMT_F
    pmt_t.PMT_T pmt_t.PMT_F pmt_t.PMT_F
    pmt_t.PMT_F pmt_t.PMT_T pmt_t.PMT_F
    (by decide) (by decide)

end GrExtras
